import Mathlib

/-!
# ioCoro awaitable socket operations

A shallow embedding of `src/include/iocoro_syscall.hpp`: the awaitable base
protocol `ioCoroSyscall` and the operations derived from it (`ioCoroRead`,
`ioCoroCompletedRead`, `ioCoroWrite`, `ioCoroCompletedWrite`, `ioCoroConnect`,
`ioCoroReadUntil`).

Conventions of the embedding.

* A C++ member function becomes a Lean function from the object's state to a
  pair `(returned value, state after the call)`, so that side effects are
  visible in the second component.
* `Socket& m_s` is a reference to an object that lives outside the operation;
  the embedding stores the referenced socket's state in the field `m_s`, and a
  call through the reference updates that field.
* `size_t` values are naturals reduced modulo `2^64`, `ssize_t` / `ptrdiff_t`
  values are integers wrapped into `[-2^63, 2^63)`; pointers are natural
  numbers (byte addresses).
* Inheritance is structure extension; an inherited member function is the base
  function applied to the base sub-object.
-/

namespace ioCoro

/-! ## Machine integers -/

/-- Conversion of an integer value to `size_t` (reduction modulo `2^64`). -/
def toSizeT (n : Int) : Nat := (n % 2 ^ 64).toNat

/-- Conversion of an integer value to `ssize_t` / `ptrdiff_t` (two's
complement wrap into `[-2^63, 2^63)`). -/
def toSSizeT (n : Int) : Int := (n + 2 ^ 63) % 2 ^ 64 - 2 ^ 63

/-! ## The socket collaborator -/

/-- Modelled from the spec: the `Socket` class is declared outside
`iocoro_syscall.hpp`. The spec's data model gives it an error/status flag and a
half-close flag pair (read-closed, write-closed). -/
structure Socket where
  /-- Spec: the error/status flag, set on any unrecoverable failure. -/
  errorStatus : Bool
  /-- Spec: the read side has been half-closed. -/
  readClosed : Bool
  /-- Spec: the write side has been half-closed. -/
  writeClosed : Bool
  deriving DecidableEq, Repr

/-- Modelled from the spec: `Socket::ShutdownRead` is defined outside
`iocoro_syscall.hpp`. The spec describes it as the read-side half-close, after
which the socket's read-closed flag is set. -/
def Socket.ShutdownRead (s : Socket) : Socket := { s with readClosed := true }

/-- Modelled from the spec: `Socket::ShutdownWrite` is defined outside
`iocoro_syscall.hpp`. The spec describes it as the write-side half-close, after
which the socket's write-closed flag is set. -/
def Socket.ShutdownWrite (s : Socket) : Socket := { s with writeClosed := true }

/-- Modelled from the spec: marking the socket's error status on an
unrecoverable failure (the status storage lives in the `Socket` class, outside
`iocoro_syscall.hpp`). -/
def Socket.MarkError (s : Socket) : Socket := { s with errorStatus := true }

/-! ## `ioCoroSyscall`, the base protocol (lines 18-25) -/

/-- The struct `ioCoroSyscall`: no data members. -/
structure ioCoroSyscall where
  deriving DecidableEq, Repr

/-- The member `bool await_ready() { return false; }`. -/
def ioCoroSyscall.await_ready (self : ioCoroSyscall) : Bool × ioCoroSyscall :=
  (false, self)

/-- The member `bool await_suspend(std::coroutine_handle<> h) { return true; }`;
the handle is an address. -/
def ioCoroSyscall.await_suspend (self : ioCoroSyscall) (_h : Nat) :
    Bool × ioCoroSyscall :=
  (true, self)

/-- The member `void await_resume() {}`. -/
def ioCoroSyscall.await_resume (self : ioCoroSyscall) : Unit × ioCoroSyscall :=
  ((), self)

/-! ## `ioCoroRead` and `ioCoroCompletedRead` (lines 43-86) -/

/-- The struct `ioCoroRead : ioCoroSyscall` with members `m_s`, `buf`, `len`,
`total`. -/
structure ioCoroRead extends ioCoroSyscall where
  /-- Member `Socket& m_s`: state of the referenced socket. -/
  m_s : Socket
  /-- Member `void* buf`. -/
  buf : Nat
  /-- Member `ssize_t len`. -/
  len : Int
  /-- Member `ssize_t total`. -/
  total : Int
  deriving DecidableEq, Repr

/-- The constructor `ioCoroRead(Socket& inS, void* inBuf, size_t inLen)`:
`len(inLen)` converts the `size_t` argument to `ssize_t`, `total(0)`. -/
def ioCoroRead.ctor (inS : Socket) (inBuf : Nat) (inLen : Nat) : ioCoroRead :=
  { toioCoroSyscall := {}, m_s := inS, buf := inBuf, len := toSSizeT inLen, total := 0 }

/-- The readiness check of `ioCoroRead`, inherited from `ioCoroSyscall`. -/
def ioCoroRead.await_ready (self : ioCoroRead) : Bool × ioCoroRead :=
  let r := self.toioCoroSyscall.await_ready
  (r.1, { self with toioCoroSyscall := r.2 })

/-- The member `ssize_t await_resume() { return total; }` of `ioCoroRead`. -/
def ioCoroRead.await_resume (self : ioCoroRead) : Int × ioCoroRead :=
  (self.total, self)

/-- The struct `ioCoroCompletedRead : ioCoroRead`; no members of its own. -/
structure ioCoroCompletedRead extends ioCoroRead where
  deriving DecidableEq, Repr

/-- The constructor `ioCoroCompletedRead(Socket&, void*, size_t)`, which
delegates to the `ioCoroRead` constructor. -/
def ioCoroCompletedRead.ctor (inS : Socket) (inBuf : Nat) (inLen : Nat) :
    ioCoroCompletedRead :=
  { toioCoroRead := ioCoroRead.ctor inS inBuf inLen }

/-- The readiness check of `ioCoroCompletedRead`, inherited through
`ioCoroRead` from `ioCoroSyscall`. -/
def ioCoroCompletedRead.await_ready (self : ioCoroCompletedRead) :
    Bool × ioCoroCompletedRead :=
  let r := self.toioCoroRead.await_ready
  (r.1, { self with toioCoroRead := r.2 })

/-- The member of `ioCoroCompletedRead`
`ssize_t await_resume() { m_s.ShutdownRead(); return total; }`. -/
def ioCoroCompletedRead.await_resume (self : ioCoroCompletedRead) :
    Int × ioCoroCompletedRead :=
  let self1 : ioCoroCompletedRead := { self with m_s := self.m_s.ShutdownRead }
  (self1.total, self1)

/-- The spec's wording of CompletedRead's result extraction: perform Read's
result extraction, then unconditionally half-close the read side. -/
def ioCoroCompletedRead.readThenShutdownRead (self : ioCoroCompletedRead) :
    Int × ioCoroCompletedRead :=
  let r := self.toioCoroRead.await_resume
  (r.1, { toioCoroRead := { r.2 with m_s := r.2.m_s.ShutdownRead } })

/-! ## `ioCoroWrite` and `ioCoroCompletedWrite` (lines 104-146) -/

/-- The struct `ioCoroWrite : ioCoroSyscall` with members `m_s`, `buf`, `len`,
`total`. -/
structure ioCoroWrite extends ioCoroSyscall where
  /-- Member `Socket& m_s`: state of the referenced socket. -/
  m_s : Socket
  /-- Member `void const* buf`. -/
  buf : Nat
  /-- Member `ssize_t len`. -/
  len : Int
  /-- Member `ssize_t total`. -/
  total : Int
  deriving DecidableEq, Repr

/-- The constructor `ioCoroWrite(Socket& inS, void const* inBuf, size_t inLen)`:
`len(inLen)` converts the `size_t` argument to `ssize_t`, `total(0)`. -/
def ioCoroWrite.ctor (inS : Socket) (inBuf : Nat) (inLen : Nat) : ioCoroWrite :=
  { toioCoroSyscall := {}, m_s := inS, buf := inBuf, len := toSSizeT inLen, total := 0 }

/-- The readiness check of `ioCoroWrite`, inherited from `ioCoroSyscall`. -/
def ioCoroWrite.await_ready (self : ioCoroWrite) : Bool × ioCoroWrite :=
  let r := self.toioCoroSyscall.await_ready
  (r.1, { self with toioCoroSyscall := r.2 })

/-- The member `ssize_t await_resume() { return total; }` of `ioCoroWrite`. -/
def ioCoroWrite.await_resume (self : ioCoroWrite) : Int × ioCoroWrite :=
  (self.total, self)

/-- The struct `ioCoroCompletedWrite : ioCoroWrite`; no members of its own. -/
structure ioCoroCompletedWrite extends ioCoroWrite where
  deriving DecidableEq, Repr

/-- The constructor `ioCoroCompletedWrite(Socket&, void const*, size_t)`, which
delegates to the `ioCoroWrite` constructor. -/
def ioCoroCompletedWrite.ctor (inS : Socket) (inBuf : Nat) (inLen : Nat) :
    ioCoroCompletedWrite :=
  { toioCoroWrite := ioCoroWrite.ctor inS inBuf inLen }

/-- The readiness check of `ioCoroCompletedWrite`, inherited through
`ioCoroWrite` from `ioCoroSyscall`. -/
def ioCoroCompletedWrite.await_ready (self : ioCoroCompletedWrite) :
    Bool × ioCoroCompletedWrite :=
  let r := self.toioCoroWrite.await_ready
  (r.1, { self with toioCoroWrite := r.2 })

/-- The member of `ioCoroCompletedWrite`
`ssize_t await_resume() { m_s.ShutdownWrite(); return total; }`. -/
def ioCoroCompletedWrite.await_resume (self : ioCoroCompletedWrite) :
    Int × ioCoroCompletedWrite :=
  let self1 : ioCoroCompletedWrite := { self with m_s := self.m_s.ShutdownWrite }
  (self1.total, self1)

/-- The spec's wording of CompletedWrite's result extraction: perform Write's
result extraction, then unconditionally half-close the write side. -/
def ioCoroCompletedWrite.writeThenShutdownWrite (self : ioCoroCompletedWrite) :
    Int × ioCoroCompletedWrite :=
  let r := self.toioCoroWrite.await_resume
  (r.1, { toioCoroWrite := { r.2 with m_s := r.2.m_s.ShutdownWrite } })

/-! ## `ioCoroConnect` (lines 163-178) -/

/-- The struct `ioCoroConnect : ioCoroSyscall` with members `host`, `m_s`. -/
structure ioCoroConnect extends ioCoroSyscall where
  /-- Member `char const* host`. -/
  host : Nat
  /-- Member `Socket& m_s`: state of the referenced socket. -/
  m_s : Socket
  deriving DecidableEq, Repr

/-- The constructor `ioCoroConnect(Socket& inS, char const* inHost)`. -/
def ioCoroConnect.ctor (inS : Socket) (inHost : Nat) : ioCoroConnect :=
  { toioCoroSyscall := {}, host := inHost, m_s := inS }

/-- The readiness check of `ioCoroConnect`, inherited from `ioCoroSyscall`. -/
def ioCoroConnect.await_ready (self : ioCoroConnect) : Bool × ioCoroConnect :=
  let r := self.toioCoroSyscall.await_ready
  (r.1, { self with toioCoroSyscall := r.2 })

/-- The result extraction of `ioCoroConnect`, inherited from `ioCoroSyscall`
(`void await_resume() {}`). -/
def ioCoroConnect.await_resume (self : ioCoroConnect) : Unit × ioCoroConnect :=
  let r := self.toioCoroSyscall.await_resume
  (r.1, { self with toioCoroSyscall := r.2 })

/-! ## `ioCoroReadUntil` (lines 200-232) -/

/-- The struct `ioCoroReadUntil : ioCoroSyscall`. The member
`char const* delim` is represented by the bytes of the C string it points to
(terminator excluded). -/
structure ioCoroReadUntil extends ioCoroSyscall where
  /-- Member `Socket& m_s`: state of the referenced socket. -/
  m_s : Socket
  /-- Member `void* buf`. -/
  buf : Nat
  /-- Member `ssize_t len`. -/
  len : Int
  /-- Member `char const* delim`: the bytes of the terminate string. -/
  delim : List Nat
  /-- Member `int offset`. -/
  offset : Int
  /-- Member `void const* pos`. -/
  pos : Nat
  /-- Member `void* start`. -/
  start : Nat
  /-- Member `ssize_t total`. -/
  total : Int
  deriving DecidableEq, Repr

/-- The constructor
`ioCoroReadUntil(Socket& inS, void* inBuf, ssize_t inLen, char const* inDelim)`:
`offset(0)`, `pos(inBuf)`, `start(inBuf)`, `total(0)`. -/
def ioCoroReadUntil.ctor (inS : Socket) (inBuf : Nat) (inLen : Int)
    (inDelim : List Nat) : ioCoroReadUntil :=
  { toioCoroSyscall := {}, m_s := inS, buf := inBuf, len := inLen, delim := inDelim,
    offset := 0, pos := inBuf, start := inBuf, total := 0 }

/-- The readiness check of `ioCoroReadUntil`, inherited from `ioCoroSyscall`. -/
def ioCoroReadUntil.await_ready (self : ioCoroReadUntil) : Bool × ioCoroReadUntil :=
  let r := self.toioCoroSyscall.await_ready
  (r.1, { self with toioCoroSyscall := r.2 })

/-- The member of `ioCoroReadUntil`
`pair<ssize_t, size_t> await_resume() { return { total, (char const*)pos - (char const*)start }; }`:
the pointer difference is a `ptrdiff_t`, converted to `size_t` by the pair's
constructor. -/
def ioCoroReadUntil.await_resume (self : ioCoroReadUntil) :
    (Int × Nat) × ioCoroReadUntil :=
  ((self.total, toSizeT (toSSizeT ((self.pos : Int) - (self.start : Int)))), self)

/-- The values of the members of an `ioCoroReadUntil` lie in the ranges of
their C++ types: 64-bit pointers, `ssize_t` lengths and a 32-bit `int`. -/
def ioCoroReadUntil.InRange (self : ioCoroReadUntil) : Prop :=
  self.buf < 2 ^ 64 ∧ self.pos < 2 ^ 64 ∧ self.start < 2 ^ 64 ∧
  -(2 ^ 63) ≤ self.len ∧ self.len < 2 ^ 63 ∧
  -(2 ^ 63) ≤ self.total ∧ self.total < 2 ^ 63 ∧
  -(2 ^ 31) ≤ self.offset ∧ self.offset < 2 ^ 31

/-! ## The suspend step of `ioCoroWrite`

`ioCoroWrite::await_suspend` is declared in `iocoro_syscall.hpp` (line 106) and
defined in a file that is not part of the sources at hand; the reactor and the
socket's transfer primitives are external collaborators. The definitions of
this section follow the spec (sections 4.1, 4.4 and 6). -/

/-- Modelled from the spec: the outcome of one `tryWrite` attempt
(`bytesOrWouldBlockOrError`), missing with the `Socket` class. `bytes n` means
the socket is able to take `n` bytes at this readiness event. -/
inductive WriteEvent where
  | bytes (n : Nat)
  | wouldBlock
  | error
  deriving DecidableEq, Repr

/-- Modelled from the spec: the missing body of `ioCoroWrite::await_suspend`.
It suspends (registers for write readiness) unless the request is already
satisfied, as for a zero-length request (section 4.1). -/
def ioCoroWrite.await_suspend (self : ioCoroWrite) (_h : Nat) : Bool × ioCoroWrite :=
  if self.total = self.len then (false, self) else (true, self)

/-- Modelled from the spec: the missing resumption callback of `ioCoroWrite`
(section 4.4). One readiness notification attempts a non-blocking send of
`buf + total .. buf + len`; accepted bytes are added to `total` and the
operation completes when `total == len`; "would block" re-registers; an
unrecoverable error marks the socket and completes with the short `total`.
The boolean says whether the operation completed. -/
def ioCoroWrite.onReady (self : ioCoroWrite) (ev : WriteEvent) : ioCoroWrite × Bool :=
  match ev with
  | .bytes n =>
    let sent : Nat := min n (self.len - self.total).toNat
    let self1 : ioCoroWrite := { self with total := self.total + sent }
    (self1, decide (self1.total = self1.len))
  | .wouldBlock => (self, false)
  | .error => ({ self with m_s := self.m_s.MarkError }, true)

/-- Modelled from the spec: the reactor delivering readiness notifications to a
suspended `ioCoroWrite`, one resumption per registration, until the operation
completes or the notifications run out. -/
def ioCoroWrite.drive : ioCoroWrite → List WriteEvent → ioCoroWrite × Bool
  | self, [] => (self, false)
  | self, ev :: evs =>
    let r := self.onReady ev
    if r.2 then r else ioCoroWrite.drive r.1 evs

/-- Modelled from the spec: a whole `co_await` on an `ioCoroWrite` up to the
point where the task is resumed: the suspend step, then the notifications. The
boolean says whether the operation completed (the task was resumed). -/
def ioCoroWrite.run (self : ioCoroWrite) (h : Nat) (evs : List WriteEvent) :
    ioCoroWrite × Bool :=
  let r := self.await_suspend h
  if r.1 then ioCoroWrite.drive r.2 evs else (r.2, true)

/-- Modelled from the spec: the number of bytes the socket is able to take over
a sequence of readiness events. -/
def WriteEvent.capacity : List WriteEvent → Nat
  | [] => 0
  | .bytes n :: evs => n + WriteEvent.capacity evs
  | _ :: evs => WriteEvent.capacity evs

/-! ## The suspend step of `ioCoroReadUntil`

`ioCoroReadUntil::await_suspend` is declared in `iocoro_syscall.hpp` (line 215)
and defined in a file that is not part of the sources at hand. The definitions
of this section follow the spec (sections 4.1, 4.7 and 6). -/

/-- Modelled from the spec: the outcome of one `tryRead` attempt
(`bytesOrWouldBlockOrError`), missing with the `Socket` class. `data bs` is a
fragment delivered by the peer. -/
inductive ReadEvent where
  | data (bs : List Nat)
  | wouldBlock
  | closed
  deriving DecidableEq, Repr

/-- Modelled from the spec: an `ioCoroReadUntil` together with the contents of
the buffer it fills (the bytes stored at `start .. start + total`); the memory
behind `void* buf` is not part of the struct. -/
structure ReadUntilRun where
  /-- The operation object. -/
  op : ioCoroReadUntil
  /-- The bytes received so far, in buffer order. -/
  mem : List Nat
  deriving DecidableEq, Repr

/-- Modelled from the spec: "the first full occurrence of the delimiter
pattern" in a span of bytes, as an index into the span (the scan is part of the
missing body of `ioCoroReadUntil::await_suspend`). -/
def findDelim (d : List Nat) : List Nat → Option Nat
  | [] => if d = [] then some 0 else none
  | x :: xs =>
    if (x :: xs).take d.length = d then some 0
    else (findDelim d xs).map Nat.succ

/-- Modelled from the spec: "how many bytes of a partial match have already
been seen at the end of the previous span": the largest `k` up to the given
bound such that the last `k` bytes of `w` are the first `k` bytes of `d`. -/
def seenAtEnd (d w : List Nat) : Nat → Nat
  | 0 => 0
  | k + 1 =>
    if k + 1 ≤ w.length ∧ w.drop (w.length - (k + 1)) = d.take (k + 1) then k + 1
    else seenAtEnd d w k

/-- Modelled from the spec: the missing body of
`ioCoroReadUntil::await_suspend`. It suspends (registers for read readiness)
unless the request is already satisfied, as for a zero-length request
(section 4.1), in which case the buffer is exhausted without a match and
`pos == start + total`. -/
def ReadUntilRun.await_suspend (self : ReadUntilRun) (_h : Nat) : Bool × ReadUntilRun :=
  if self.op.total = self.op.len then
    (false, { self with op := { self.op with pos := self.op.start + self.op.total.toNat } })
  else (true, self)

/-- Modelled from the spec: the missing resumption callback of
`ioCoroReadUntil` (section 4.7). One readiness notification receives into the
buffer at `start + total`, for at most `len - total` bytes, extending `total`;
then scans the newly received span together with up to `delimiter_length - 1`
trailing bytes from before it for the first full occurrence of the delimiter.
Completion, in priority order: (a) delimiter found, `pos` points to the start
of the occurrence; (b) buffer exhausted, `pos == start + total`; (c) peer close
or unrecoverable error marks the socket. Otherwise `offset` records the bytes
of a match seen at the end of the span, the scan cursor `pos` is left where
that match begins, and the operation suspends again. The boolean says whether
the operation completed. -/
def ReadUntilRun.onReady (self : ReadUntilRun) (ev : ReadEvent) : ReadUntilRun × Bool :=
  match ev with
  | .data bs =>
    let got := bs.take (self.op.len - self.op.total).toNat
    let mem1 := self.mem ++ got
    let total1 : Int := self.op.total + got.length
    let before : Nat := self.op.total.toNat
    let origin : Nat := before - min before (self.op.delim.length - 1)
    match findDelim self.op.delim (mem1.drop origin) with
    | some i =>
      ({ op := { self.op with total := total1, pos := self.op.start + (origin + i) },
         mem := mem1 }, true)
    | none =>
      if total1 = self.op.len then
        ({ op := { self.op with total := total1, pos := self.op.start + total1.toNat },
           mem := mem1 }, true)
      else
        let seen := seenAtEnd self.op.delim mem1 (self.op.delim.length - 1)
        ({ op := { self.op with total := total1, offset := seen,
                                pos := self.op.start + (total1.toNat - seen) },
           mem := mem1 }, false)
  | .wouldBlock => (self, false)
  | .closed => ({ self with op := { self.op with m_s := self.op.m_s.MarkError } }, true)

/-- Modelled from the spec: the reactor delivering readiness notifications to a
suspended `ioCoroReadUntil`, one resumption per registration, until the
operation completes or the notifications run out. -/
def ReadUntilRun.drive : ReadUntilRun → List ReadEvent → ReadUntilRun × Bool
  | self, [] => (self, false)
  | self, ev :: evs =>
    let r := self.onReady ev
    if r.2 then r else ReadUntilRun.drive r.1 evs

/-- Modelled from the spec: a whole `co_await` on a freshly constructed
`ioCoroReadUntil` up to the point where the task is resumed. The boolean says
whether the operation completed (the task was resumed). -/
def ioCoroReadUntil.run (self : ioCoroReadUntil) (h : Nat) (evs : List ReadEvent) :
    ReadUntilRun × Bool :=
  let r := ReadUntilRun.await_suspend { op := self, mem := [] } h
  if r.1 then ReadUntilRun.drive r.2 evs else (r.2, true)

/-- The byte stream `"AB" + delimiter + "CD"` of the boundary-crossing
scenario (ASCII codes 65, 66 and 67, 68). -/
def abDelimCd (d : List Nat) : List Nat := [65, 66] ++ d ++ [67, 68]

/-! ## Auxiliary facts on the machine integers -/

theorem toSizeT_toSSizeT (x : Int) : toSizeT (toSSizeT x) = (x % 2 ^ 64).toNat := by
  unfold toSizeT toSSizeT
  congr 1
  omega

theorem toSSizeT_natCast_nonneg_iff (n : Nat) :
    0 ≤ toSSizeT (n : Int) ↔ n % 2 ^ 64 < 2 ^ 63 := by
  unfold toSSizeT
  omega

/-! ## Result extraction of the completed variants -/

/-- C1: for every `ioCoroCompletedRead` state, `await_resume` coincides with
`ioCoroRead`'s result extraction followed by `Socket.ShutdownRead`: it returns
the `total` that `ioCoroRead::await_resume` returns on the same state, leaves
`total`, `buf` and `len` unchanged, and the socket ends in the state
`ShutdownRead` produces, with the read side closed. -/
theorem completedRead_await_resume_eq_read_then_shutdown (self : ioCoroCompletedRead) :
    self.await_resume = self.readThenShutdownRead ∧
    self.await_resume.1 = self.toioCoroRead.await_resume.1 ∧
    self.await_resume.1 = self.total ∧
    self.await_resume.2.total = self.total ∧
    self.await_resume.2.buf = self.buf ∧
    self.await_resume.2.len = self.len ∧
    self.await_resume.2.m_s = self.m_s.ShutdownRead ∧
    self.await_resume.2.m_s.readClosed = true := by
  refine ⟨rfl, rfl, rfl, rfl, rfl, rfl, rfl, rfl⟩

/-- C2: for every `ioCoroCompletedWrite` state, `await_resume` coincides with
`ioCoroWrite`'s result extraction followed by `Socket.ShutdownWrite`: it
returns the `total` that `ioCoroWrite::await_resume` returns on the same state,
leaves `total`, `buf` and `len` unchanged, the write side is closed afterwards
and the read-closed flag is the one from before the call. -/
theorem completedWrite_await_resume_eq_write_then_shutdown (self : ioCoroCompletedWrite) :
    self.await_resume = self.writeThenShutdownWrite ∧
    self.await_resume.1 = self.toioCoroWrite.await_resume.1 ∧
    self.await_resume.1 = self.total ∧
    self.await_resume.2.total = self.total ∧
    self.await_resume.2.buf = self.buf ∧
    self.await_resume.2.len = self.len ∧
    self.await_resume.2.m_s = self.m_s.ShutdownWrite ∧
    self.await_resume.2.m_s.writeClosed = true ∧
    self.await_resume.2.m_s.readClosed = self.m_s.readClosed := by
  refine ⟨rfl, rfl, rfl, rfl, rfl, rfl, rfl, rfl, rfl⟩

/-! ## Side effects of the readiness check and of result extraction -/

/-- C3 fails as stated: result extraction of an `ioCoroCompletedRead` on an
open socket changes the socket, whose read-closed flag goes from `false` to
`true`, so the state after the call differs from the state before. -/
theorem completedRead_await_resume_changes_socket :
    (ioCoroCompletedRead.ctor ⟨false, false, false⟩ 4096 16).m_s.readClosed = false ∧
    (ioCoroCompletedRead.ctor ⟨false, false, false⟩ 4096 16).await_resume.2.m_s.readClosed
      = true ∧
    (ioCoroCompletedRead.ctor ⟨false, false, false⟩ 4096 16).await_resume.2
      ≠ ioCoroCompletedRead.ctor ⟨false, false, false⟩ 4096 16 := by
  decide

/-- C3, amended: the readiness check of every operation type, and the result
extraction of `ioCoroSyscall`, `ioCoroRead`, `ioCoroWrite`, `ioCoroConnect` and
`ioCoroReadUntil`, leave the operation's fields and the socket's state as they
were. Result extraction of `ioCoroCompletedRead` (`ioCoroCompletedWrite`)
leaves the operation's fields as they were and changes the socket by
`ShutdownRead` (`ShutdownWrite`) only: the error flag and the other half-close
flag keep their values. -/
theorem await_ready_await_resume_frame (b : ioCoroSyscall) (r : ioCoroRead)
    (cr : ioCoroCompletedRead) (w : ioCoroWrite) (cw : ioCoroCompletedWrite)
    (c : ioCoroConnect) (ru : ioCoroReadUntil) :
    (b.await_ready.2 = b ∧ r.await_ready.2 = r ∧ cr.await_ready.2 = cr ∧
      w.await_ready.2 = w ∧ cw.await_ready.2 = cw ∧ c.await_ready.2 = c ∧
      ru.await_ready.2 = ru) ∧
    (b.await_resume.2 = b ∧ r.await_resume.2 = r ∧ w.await_resume.2 = w ∧
      c.await_resume.2 = c ∧ ru.await_resume.2 = ru) ∧
    (cr.await_resume.2 = { cr with m_s := cr.m_s.ShutdownRead } ∧
      cr.await_resume.2.buf = cr.buf ∧ cr.await_resume.2.len = cr.len ∧
      cr.await_resume.2.total = cr.total ∧
      cr.await_resume.2.m_s.errorStatus = cr.m_s.errorStatus ∧
      cr.await_resume.2.m_s.writeClosed = cr.m_s.writeClosed) ∧
    (cw.await_resume.2 = { cw with m_s := cw.m_s.ShutdownWrite } ∧
      cw.await_resume.2.buf = cw.buf ∧ cw.await_resume.2.len = cw.len ∧
      cw.await_resume.2.total = cw.total ∧
      cw.await_resume.2.m_s.errorStatus = cw.m_s.errorStatus ∧
      cw.await_resume.2.m_s.readClosed = cw.m_s.readClosed) := by
  refine ⟨⟨rfl, rfl, rfl, rfl, rfl, rfl, rfl⟩, ⟨rfl, rfl, rfl, rfl, rfl⟩,
    ⟨rfl, rfl, rfl, rfl, rfl, rfl⟩, ⟨rfl, rfl, rfl, rfl, rfl, rfl⟩⟩

/-! ## Result extraction of `ioCoroReadUntil` -/

/-- C4: result extraction of `ioCoroReadUntil` returns `total` as first
component and leaves the state as it was; for a state whose members are in the
ranges of their types and which satisfies `start ≤ pos ≤ start + total`, the
second component is the exact difference `pos - start`, without wrap-around in
the conversion to `size_t`, and lies between `0` and `total`. -/
theorem readUntil_await_resume_pair (self : ioCoroReadUntil) :
    self.await_resume.1.1 = self.total ∧
    (self.InRange → self.start ≤ self.pos →
      (self.pos : Int) ≤ (self.start : Int) + self.total →
      self.await_resume.1 = (self.total, self.pos - self.start) ∧
      ((self.await_resume.1.2 : Nat) : Int) = (self.pos : Int) - (self.start : Int) ∧
      (0 : Int) ≤ ((self.await_resume.1.2 : Nat) : Int) ∧
      ((self.await_resume.1.2 : Nat) : Int) ≤ self.total) := by
  refine ⟨rfl, ?_⟩
  intro hr h1 h2
  have hp : self.pos < 2 ^ 64 := hr.2.1
  have key : self.await_resume.1.2 = self.pos - self.start := by
    show toSizeT (toSSizeT ((self.pos : Int) - (self.start : Int))) = _
    rw [toSizeT_toSSizeT]
    omega
  refine ⟨?_, ?_, ?_, ?_⟩
  · exact Prod.ext rfl key
  · rw [key]; omega
  · exact Int.natCast_nonneg _
  · rw [key]; omega

/-- Witness for C4: a state with `start = 1000`, `pos = 1003`, `total = 7`
returns `(7, 3)`. -/
theorem readUntil_await_resume_pair_witness :
    ({ toioCoroSyscall := {}, m_s := ⟨false, false, false⟩, buf := 1000, len := 16,
        delim := [13, 10], offset := 0, pos := 1003, start := 1000, total := 7 } :
        ioCoroReadUntil).InRange ∧
    ({ toioCoroSyscall := {}, m_s := ⟨false, false, false⟩, buf := 1000, len := 16,
        delim := [13, 10], offset := 0, pos := 1003, start := 1000, total := 7 } :
        ioCoroReadUntil).await_resume.1 = (7, 3) :=
  ⟨by simp [ioCoroReadUntil.InRange],
   ((readUntil_await_resume_pair
      { toioCoroSyscall := {}, m_s := ⟨false, false, false⟩, buf := 1000, len := 16,
        delim := [13, 10], offset := 0, pos := 1003, start := 1000, total := 7 }).2
    (by simp [ioCoroReadUntil.InRange]) (by decide) (by decide)).1⟩

/-! ## Freshly constructed operations -/

/-- C5 fails as stated: an `ioCoroRead` constructed with the `size_t` length
`2^63` stores `len = -2^63`, so `total = 0` exceeds `len`; the same holds for
`ioCoroWrite`, and an `ioCoroReadUntil` constructed with length `-1` stores
`len = -1`. -/
theorem ctor_invariant_counterexample :
    ¬ ((0 : Int) ≤ (ioCoroRead.ctor ⟨false, false, false⟩ 4096 (2 ^ 63)).total ∧
        (ioCoroRead.ctor ⟨false, false, false⟩ 4096 (2 ^ 63)).total
          ≤ (ioCoroRead.ctor ⟨false, false, false⟩ 4096 (2 ^ 63)).len) ∧
    (ioCoroRead.ctor ⟨false, false, false⟩ 4096 (2 ^ 63)).len = -(2 ^ 63) ∧
    ¬ ((0 : Int) ≤ (ioCoroWrite.ctor ⟨false, false, false⟩ 4096 (2 ^ 63)).total ∧
        (ioCoroWrite.ctor ⟨false, false, false⟩ 4096 (2 ^ 63)).total
          ≤ (ioCoroWrite.ctor ⟨false, false, false⟩ 4096 (2 ^ 63)).len) ∧
    ¬ ((0 : Int) ≤ (ioCoroReadUntil.ctor ⟨false, false, false⟩ 4096 (-1) [13, 10]).total ∧
        (ioCoroReadUntil.ctor ⟨false, false, false⟩ 4096 (-1) [13, 10]).total
          ≤ (ioCoroReadUntil.ctor ⟨false, false, false⟩ 4096 (-1) [13, 10]).len) := by
  decide

/-- C5, amended: a freshly constructed `ioCoroRead` or `ioCoroWrite` has
`total = 0` and `len` equal to the `size_t` argument converted to `ssize_t`,
and it satisfies `0 ≤ total ≤ len` exactly when the argument (modulo `2^64`) is
below `2^63`; a freshly constructed `ioCoroReadUntil` has `total = 0` and `len`
equal to its `ssize_t` argument, and it satisfies `0 ≤ total ≤ len` exactly
when that argument is not negative. -/
theorem ctor_invariant_iff (s : Socket) (inBuf inLen : Nat) (inLenU : Int)
    (inDelim : List Nat) :
    ((ioCoroRead.ctor s inBuf inLen).total = 0 ∧
      (ioCoroRead.ctor s inBuf inLen).len = toSSizeT inLen ∧
      ((0 ≤ (ioCoroRead.ctor s inBuf inLen).total ∧
          (ioCoroRead.ctor s inBuf inLen).total ≤ (ioCoroRead.ctor s inBuf inLen).len)
        ↔ inLen % 2 ^ 64 < 2 ^ 63)) ∧
    ((ioCoroWrite.ctor s inBuf inLen).total = 0 ∧
      (ioCoroWrite.ctor s inBuf inLen).len = toSSizeT inLen ∧
      ((0 ≤ (ioCoroWrite.ctor s inBuf inLen).total ∧
          (ioCoroWrite.ctor s inBuf inLen).total ≤ (ioCoroWrite.ctor s inBuf inLen).len)
        ↔ inLen % 2 ^ 64 < 2 ^ 63)) ∧
    ((ioCoroReadUntil.ctor s inBuf inLenU inDelim).total = 0 ∧
      (ioCoroReadUntil.ctor s inBuf inLenU inDelim).len = inLenU ∧
      ((0 ≤ (ioCoroReadUntil.ctor s inBuf inLenU inDelim).total ∧
          (ioCoroReadUntil.ctor s inBuf inLenU inDelim).total
            ≤ (ioCoroReadUntil.ctor s inBuf inLenU inDelim).len)
        ↔ 0 ≤ inLenU)) := by
  have h := toSSizeT_natCast_nonneg_iff inLen
  refine ⟨⟨rfl, rfl, ?_⟩, ⟨rfl, rfl, ?_⟩, ⟨rfl, rfl, ?_⟩⟩
  · show ((0 : Int) ≤ 0 ∧ (0 : Int) ≤ toSSizeT inLen) ↔ _
    rw [← h]; simp
  · show ((0 : Int) ≤ 0 ∧ (0 : Int) ≤ toSSizeT inLen) ↔ _
    rw [← h]; simp
  · show ((0 : Int) ≤ 0 ∧ (0 : Int) ≤ inLenU) ↔ _
    simp

/-- C6: a freshly constructed `ioCoroReadUntil` has `start = pos = buf`,
`total = 0` and `offset = 0`, hence satisfies `start ≤ pos ≤ start + total`,
and result extraction on it returns `(0, 0)`. -/
theorem readUntil_ctor_fresh (s : Socket) (inBuf : Nat) (inLen : Int)
    (inDelim : List Nat) :
    (ioCoroReadUntil.ctor s inBuf inLen inDelim).start = inBuf ∧
    (ioCoroReadUntil.ctor s inBuf inLen inDelim).pos = inBuf ∧
    (ioCoroReadUntil.ctor s inBuf inLen inDelim).total = 0 ∧
    (ioCoroReadUntil.ctor s inBuf inLen inDelim).offset = 0 ∧
    (ioCoroReadUntil.ctor s inBuf inLen inDelim).start
      ≤ (ioCoroReadUntil.ctor s inBuf inLen inDelim).pos ∧
    ((ioCoroReadUntil.ctor s inBuf inLen inDelim).pos : Int)
      ≤ ((ioCoroReadUntil.ctor s inBuf inLen inDelim).start : Int)
        + (ioCoroReadUntil.ctor s inBuf inLen inDelim).total ∧
    (ioCoroReadUntil.ctor s inBuf inLen inDelim).await_resume.1 = (0, 0) := by
  refine ⟨rfl, rfl, rfl, rfl, Nat.le_refl _, ?_, ?_⟩
  · show (inBuf : Int) ≤ (inBuf : Int) + 0
    omega
  · show ((0 : Int), toSizeT (toSSizeT ((inBuf : Int) - (inBuf : Int)))) = (0, 0)
    rw [toSizeT_toSSizeT]
    simp

/-! ## The base protocol's defaults -/

/-- C9: `ioCoroSyscall::await_ready` returns `false` on every call; the
readiness check of every derived operation is the inherited one and returns
`false` in every state; `ioCoroSyscall::await_suspend` returns `true` for every
handle. -/
theorem await_ready_false_await_suspend_true (b : ioCoroSyscall) (r : ioCoroRead)
    (cr : ioCoroCompletedRead) (w : ioCoroWrite) (cw : ioCoroCompletedWrite)
    (c : ioCoroConnect) (ru : ioCoroReadUntil) (h : Nat) :
    b.await_ready.1 = false ∧
    (r.await_ready.1 = r.toioCoroSyscall.await_ready.1 ∧
      cr.await_ready.1 = cr.toioCoroSyscall.await_ready.1 ∧
      w.await_ready.1 = w.toioCoroSyscall.await_ready.1 ∧
      cw.await_ready.1 = cw.toioCoroSyscall.await_ready.1 ∧
      c.await_ready.1 = c.toioCoroSyscall.await_ready.1 ∧
      ru.await_ready.1 = ru.toioCoroSyscall.await_ready.1) ∧
    (r.await_ready.1 = false ∧ cr.await_ready.1 = false ∧ w.await_ready.1 = false ∧
      cw.await_ready.1 = false ∧ c.await_ready.1 = false ∧ ru.await_ready.1 = false) ∧
    (b.await_suspend h).1 = true := by
  refine ⟨rfl, ⟨rfl, rfl, rfl, rfl, rfl, rfl⟩, ⟨rfl, rfl, rfl, rfl, rfl, rfl⟩, rfl⟩

/-! ## Full transfer of `ioCoroWrite` -/

theorem toSSizeT_of_lt (n : Nat) (h : n < 2 ^ 63) : toSSizeT (n : Int) = n := by
  unfold toSSizeT
  omega

/-- A suspended write with bytes left to send completes with `total = len`
once the error-free notifications offer at least the missing bytes. -/
theorem ioCoroWrite.drive_completes (evs : List WriteEvent) :
    ∀ self : ioCoroWrite, self.total < self.len → 0 ≤ self.total →
      (∀ e ∈ evs, e ≠ WriteEvent.error) →
      self.len - self.total ≤ (WriteEvent.capacity evs : Int) →
      (ioCoroWrite.drive self evs).2 = true ∧
      (ioCoroWrite.drive self evs).1.total = self.len ∧
      (ioCoroWrite.drive self evs).1.len = self.len ∧
      (ioCoroWrite.drive self evs).1.buf = self.buf ∧
      (ioCoroWrite.drive self evs).1.m_s = self.m_s := by
  induction evs with
  | nil =>
    intro self hlt _ _ hcap
    simp only [WriteEvent.capacity] at hcap
    omega
  | cons ev evs ih =>
    intro self hlt h0 hne hcap
    have hne1 : ∀ e ∈ evs, e ≠ WriteEvent.error := fun e he =>
      hne e (List.mem_cons_of_mem _ he)
    cases ev with
    | bytes n =>
      simp only [WriteEvent.capacity] at hcap
      by_cases hfin : self.total + ((min n (self.len - self.total).toNat : Nat) : Int)
          = self.len
      · have hstep : ioCoroWrite.drive self (WriteEvent.bytes n :: evs)
            = ({ self with total := self.total
                    + ((min n (self.len - self.total).toNat : Nat) : Int) }, true) := by
          simp only [ioCoroWrite.drive, ioCoroWrite.onReady, hfin, decide_True, if_true]
        rw [hstep]
        exact ⟨rfl, hfin, rfl, rfl, rfl⟩
      · have hstep : ioCoroWrite.drive self (WriteEvent.bytes n :: evs)
            = ioCoroWrite.drive
                { self with total := self.total
                    + ((min n (self.len - self.total).toNat : Nat) : Int) } evs := by
          simp only [ioCoroWrite.drive, ioCoroWrite.onReady, hfin, decide_False,
            Bool.false_eq_true, if_false]
        rw [hstep]
        refine ih _ ?_ ?_ hne1 ?_
        · show self.total + ((min n (self.len - self.total).toNat : Nat) : Int) < self.len
          omega
        · show 0 ≤ self.total + ((min n (self.len - self.total).toNat : Nat) : Int)
          omega
        · show self.len - (self.total + ((min n (self.len - self.total).toNat : Nat) : Int))
            ≤ (WriteEvent.capacity evs : Int)
          push_cast at hcap
          omega
    | wouldBlock =>
      simp only [WriteEvent.capacity] at hcap
      have hstep : ioCoroWrite.drive self (WriteEvent.wouldBlock :: evs)
          = ioCoroWrite.drive self evs := by
        simp [ioCoroWrite.drive, ioCoroWrite.onReady]
      rw [hstep]
      exact ih self hlt h0 hne1 hcap
    | error =>
      exact absurd rfl (hne WriteEvent.error (List.mem_cons_self _ _))

/-- C7: an `ioCoroWrite` of length `L` (a length that the `ssize_t` member
`len` can hold) driven by any sequence of readiness events that never reports
an unrecoverable error and in which the socket takes the `L` bytes in
increments of any size, "would block" outcomes included, completes, and result
extraction returns `L`; the socket's state is the one from before. -/
theorem write_full_transfer (s : Socket) (inBuf L h : Nat) (evs : List WriteEvent)
    (hL : L < 2 ^ 63) (hne : ∀ e ∈ evs, e ≠ WriteEvent.error)
    (hcap : L ≤ WriteEvent.capacity evs) :
    ((ioCoroWrite.ctor s inBuf L).run h evs).2 = true ∧
    ((ioCoroWrite.ctor s inBuf L).run h evs).1.await_resume.1 = (L : Int) ∧
    ((ioCoroWrite.ctor s inBuf L).run h evs).1.m_s = s := by
  have hlen : (ioCoroWrite.ctor s inBuf L).len = (L : Int) := toSSizeT_of_lt L hL
  have htot : (ioCoroWrite.ctor s inBuf L).total = 0 := rfl
  by_cases hz : L = 0
  · subst hz
    have hr : (ioCoroWrite.ctor s inBuf 0).run h evs = (ioCoroWrite.ctor s inBuf 0, true) := by
      simp [ioCoroWrite.run, ioCoroWrite.await_suspend, hlen, htot]
    rw [hr]
    exact ⟨rfl, rfl, rfl⟩
  · have hr : (ioCoroWrite.ctor s inBuf L).run h evs
        = ioCoroWrite.drive (ioCoroWrite.ctor s inBuf L) evs := by
      have : ¬ ((0 : Int) = (L : Int)) := by omega
      simp [ioCoroWrite.run, ioCoroWrite.await_suspend, hlen, htot, this]
    rw [hr]
    have hd := ioCoroWrite.drive_completes evs (ioCoroWrite.ctor s inBuf L)
      (by rw [hlen, htot]; omega) (by rw [htot]) hne (by rw [hlen, htot]; omega)
    refine ⟨hd.1, ?_, hd.2.2.2.2⟩
    show (ioCoroWrite.drive (ioCoroWrite.ctor s inBuf L) evs).1.total = (L : Int)
    rw [hd.2.1, hlen]

/-- Witness for C7: five bytes taken as 1 + 1 + 3 with a "would block" in
between. -/
theorem write_full_transfer_witness :
    (5 : Nat) ≤ WriteEvent.capacity
      [WriteEvent.bytes 1, WriteEvent.wouldBlock, WriteEvent.bytes 1, WriteEvent.bytes 3] ∧
    ((ioCoroWrite.ctor ⟨false, false, false⟩ 4096 5).run 0
      [WriteEvent.bytes 1, WriteEvent.wouldBlock, WriteEvent.bytes 1,
        WriteEvent.bytes 3]).2 = true ∧
    ((ioCoroWrite.ctor ⟨false, false, false⟩ 4096 5).run 0
      [WriteEvent.bytes 1, WriteEvent.wouldBlock, WriteEvent.bytes 1,
        WriteEvent.bytes 3]).1.await_resume.1 = 5 :=
  ⟨by decide,
   (write_full_transfer ⟨false, false, false⟩ 4096 5 0
      [WriteEvent.bytes 1, WriteEvent.wouldBlock, WriteEvent.bytes 1, WriteEvent.bytes 3]
      (by decide) (by decide) (by decide)).1,
   (write_full_transfer ⟨false, false, false⟩ 4096 5 0
      [WriteEvent.bytes 1, WriteEvent.wouldBlock, WriteEvent.bytes 1, WriteEvent.bytes 3]
      (by decide) (by decide) (by decide)).2.1⟩

/-! ## The delimiter scan of `ioCoroReadUntil` across a fragment boundary -/

/-- The scan finds nothing in a span without an occurrence of a non-empty
delimiter. -/
theorem findDelim_eq_none (d : List Nat) (hd : d ≠ []) :
    ∀ w : List Nat, (∀ j, (w.drop j).take d.length ≠ d) → findDelim d w = none := by
  intro w
  induction w with
  | nil => intro _; simp [findDelim, hd]
  | cons x xs ih =>
    intro hno
    have h0 : ¬ ((x :: xs).take d.length = d) := hno 0
    have hrest : ∀ j, (xs.drop j).take d.length ≠ d := fun j => hno (j + 1)
    simp only [findDelim, if_neg h0, ih hrest, Option.map_none']

/-- The scan returns the index of the first occurrence. -/
theorem findDelim_eq_some (d : List Nat) :
    ∀ (i : Nat) (w : List Nat), (w.drop i).take d.length = d →
      (∀ j, j < i → (w.drop j).take d.length ≠ d) → findDelim d w = some i := by
  intro i
  induction i with
  | zero =>
    intro w hocc _
    cases w with
    | nil =>
      have : d = [] := by simpa using hocc.symm
      simp [findDelim, this]
    | cons x xs =>
      have h0 : (x :: xs).take d.length = d := hocc
      simp only [findDelim, if_pos h0]
  | succ i ih =>
    intro w hocc hno
    cases w with
    | nil =>
      exact absurd (by simpa using hocc) (hno 0 (Nat.succ_pos i))
    | cons x xs =>
      have h0 : ¬ ((x :: xs).take d.length = d) := hno 0 (Nat.succ_pos i)
      have hrest : ∀ j, j < i → (xs.drop j).take d.length ≠ d := fun j hj =>
        hno (j + 1) (Nat.succ_lt_succ hj)
      have hocc1 : (xs.drop i).take d.length = d := hocc
      simp only [findDelim, if_neg h0, ih xs hocc1 hrest, Option.map_some']

/-- An occurrence of the delimiter in a truncated stream is an occurrence in
the stream. -/
theorem occurrence_of_take (d st : List Nat) (m j : Nat)
    (h : ((st.take m).drop j).take d.length = d) : (st.drop j).take d.length = d := by
  rw [List.drop_take, List.take_take] at h
  by_cases hc : d.length ≤ m - j
  · rwa [Nat.min_eq_left hc] at h
  · exfalso
    have hl := congrArg List.length h
    rw [List.length_take] at hl
    omega

/-- One notification with data in which the scan finds the delimiter. -/
theorem ReadUntilRun.onReady_data_found (self : ReadUntilRun) (bs : List Nat) (i : Nat)
    (h : findDelim self.op.delim
        ((self.mem ++ bs.take (self.op.len - self.op.total).toNat).drop
          (self.op.total.toNat - min self.op.total.toNat (self.op.delim.length - 1)))
        = some i) :
    self.onReady (ReadEvent.data bs) =
      ({ op := { self.op with
            total := self.op.total
              + ((bs.take (self.op.len - self.op.total).toNat).length : Int),
            pos := self.op.start
              + ((self.op.total.toNat
                  - min self.op.total.toNat (self.op.delim.length - 1)) + i) },
         mem := self.mem ++ bs.take (self.op.len - self.op.total).toNat }, true) := by
  simp only [ReadUntilRun.onReady, h]

/-- One notification with data in which the scan finds nothing and which
leaves room in the buffer. -/
theorem ReadUntilRun.onReady_data_pending (self : ReadUntilRun) (bs : List Nat)
    (h : findDelim self.op.delim
        ((self.mem ++ bs.take (self.op.len - self.op.total).toNat).drop
          (self.op.total.toNat - min self.op.total.toNat (self.op.delim.length - 1)))
        = none)
    (hroom : self.op.total + ((bs.take (self.op.len - self.op.total).toNat).length : Int)
        ≠ self.op.len) :
    (self.onReady (ReadEvent.data bs)).2 = false ∧
    (self.onReady (ReadEvent.data bs)).1.mem
      = self.mem ++ bs.take (self.op.len - self.op.total).toNat ∧
    (self.onReady (ReadEvent.data bs)).1.op.total
      = self.op.total + ((bs.take (self.op.len - self.op.total).toNat).length : Int) ∧
    (self.onReady (ReadEvent.data bs)).1.op.len = self.op.len ∧
    (self.onReady (ReadEvent.data bs)).1.op.delim = self.op.delim ∧
    (self.onReady (ReadEvent.data bs)).1.op.start = self.op.start ∧
    (self.onReady (ReadEvent.data bs)).1.op.m_s = self.op.m_s := by
  simp only [ReadUntilRun.onReady, h, if_neg hroom, and_self]

theorem abDelimCd_length (d : List Nat) : (abDelimCd d).length = d.length + 4 := by
  simp [abDelimCd]

theorem abDelimCd_occurrence_at_two (d : List Nat) :
    ((abDelimCd d).drop 2).take d.length = d := by
  simp [abDelimCd]

/-- The first fragment `"AB" + delimiter[0 .. k)` holds no occurrence of the
delimiter when the stream holds none before index 2. -/
theorem first_fragment_no_occurrence (d : List Nat) (k : Nat) (hk : k < d.length)
    (hno : ∀ j, j < 2 → ((abDelimCd d).drop j).take d.length ≠ d) :
    ∀ j, (((abDelimCd d).take (2 + k)).drop j).take d.length ≠ d := by
  intro j hj
  have hocc := occurrence_of_take d (abDelimCd d) (2 + k) j hj
  have hl := congrArg List.length hj
  rw [List.length_take, List.length_drop, List.length_take, abDelimCd_length] at hl
  exact hno j (by omega) hocc

/-- The scan after the second fragment: in the stream truncated to `m` bytes,
with `m` reaching the end of the delimiter, the scan from an origin at or
before index 2 finds the delimiter at index 2 of the stream. -/
theorem second_fragment_scan (d : List Nat) (m origin : Nat) (hm : d.length + 2 ≤ m)
    (ho : origin ≤ 2)
    (hno : ∀ j, j < 2 → ((abDelimCd d).drop j).take d.length ≠ d) :
    findDelim d (((abDelimCd d).take m).drop origin) = some (2 - origin) := by
  apply findDelim_eq_some
  · rw [List.drop_drop, List.drop_take, List.take_take]
    have e1 : origin + (2 - origin) = 2 := by omega
    have e2 : min d.length (m - 2) = d.length := by omega
    rw [e1, e2]
    exact abDelimCd_occurrence_at_two d
  · intro j hj hocc
    rw [List.drop_drop] at hocc
    exact hno (origin + j) (by omega) (occurrence_of_take d (abDelimCd d) m _ hocc)

/-- The second notification of the boundary-crossing scenario: a suspended
operation that holds the first fragment receives the rest of the stream, finds
the delimiter at index 2 and completes. -/
theorem second_fragment_completes (run1 : ReadUntilRun) (d : List Nat) (k : Nat)
    (hk : k < d.length) (hlen : (d.length : Int) + 2 ≤ run1.op.len)
    (hno : ∀ j, j < 2 → ((abDelimCd d).drop j).take d.length ≠ d)
    (hdelim : run1.op.delim = d) (hmem : run1.mem = (abDelimCd d).take (2 + k))
    (htotal : run1.op.total = ((2 + k : Nat) : Int)) :
    (run1.onReady (ReadEvent.data ((abDelimCd d).drop (2 + k)))).2 = true ∧
    (run1.onReady (ReadEvent.data ((abDelimCd d).drop (2 + k)))).1.op.await_resume.1
      = (min run1.op.len ((d.length : Int) + 4), 2) ∧
    (run1.onReady (ReadEvent.data ((abDelimCd d).drop (2 + k)))).1.op.m_s = run1.op.m_s := by
  have hmem1 : run1.mem
      ++ ((abDelimCd d).drop (2 + k)).take (run1.op.len - run1.op.total).toNat
      = (abDelimCd d).take (2 + k + (run1.op.len - run1.op.total).toNat) := by
    rw [hmem]
    exact (List.take_add _ _ _).symm
  have horigin : run1.op.total.toNat - min run1.op.total.toNat (run1.op.delim.length - 1)
      ≤ 2 := by
    rw [hdelim, htotal]; omega
  have hfound := ReadUntilRun.onReady_data_found run1 ((abDelimCd d).drop (2 + k))
    (2 - (run1.op.total.toNat - min run1.op.total.toNat (run1.op.delim.length - 1)))
    (by
      rw [hmem1]
      have := second_fragment_scan d (2 + k + (run1.op.len - run1.op.total).toNat)
        (run1.op.total.toNat - min run1.op.total.toNat (run1.op.delim.length - 1))
        (by rw [htotal]; omega) horigin hno
      rw [hdelim] at this ⊢
      exact this)
  rw [hfound]
  refine ⟨rfl, ?_, rfl⟩
  refine Prod.ext ?_ ?_
  · show run1.op.total
        + ((((abDelimCd d).drop (2 + k)).take (run1.op.len - run1.op.total).toNat).length : Int)
      = min run1.op.len ((d.length : Int) + 4)
    rw [List.length_take, List.length_drop, abDelimCd_length, htotal]
    omega
  · show toSizeT (toSSizeT (((run1.op.start
        + ((run1.op.total.toNat - min run1.op.total.toNat (run1.op.delim.length - 1))
          + (2 - (run1.op.total.toNat
              - min run1.op.total.toNat (run1.op.delim.length - 1)))) : Nat) : Int)
        - (run1.op.start : Int))) = 2
    rw [toSizeT_toSSizeT]
    omega

/-- C8 fails as stated: with the delimiter `"BB"` and the stream `"ABBBCD"`
split after its third byte (inside the delimiter), the first fragment `"ABB"`
already holds an occurrence of the delimiter at index 1; the operation
completes there with `total = 3`, short of the end of the delimiter slot
(index 4), and returns the delimiter offset 1, not 2. -/
theorem readUntil_boundary_counterexample :
    ((ioCoroReadUntil.ctor ⟨false, false, false⟩ 4096 6 [66, 66]).run 0
      [ReadEvent.data ((abDelimCd [66, 66]).take 3),
        ReadEvent.data ((abDelimCd [66, 66]).drop 3)]).2 = true ∧
    ((ioCoroReadUntil.ctor ⟨false, false, false⟩ 4096 6 [66, 66]).run 0
      [ReadEvent.data ((abDelimCd [66, 66]).take 3),
        ReadEvent.data ((abDelimCd [66, 66]).drop 3)]).1.op.await_resume.1 = (3, 1) ∧
    ((ioCoroReadUntil.ctor ⟨false, false, false⟩ 4096 6 [66, 66]).run 0
      [ReadEvent.data ((abDelimCd [66, 66]).take 3),
        ReadEvent.data ((abDelimCd [66, 66]).drop 3)]).1.op.await_resume.1.2 ≠ 2 := by
  decide

/-- C8, amended: for every delimiter of length at least 2 that does not occur
in `"AB" + delimiter + "CD"` before index 2, every split point strictly inside
the delimiter and every buffer length that reaches the end of the delimiter, an
`ioCoroReadUntil` whose peer delivers the stream as two fragments split at that
point completes; `total` is the stream's length capped by the buffer length,
hence covers the delimiter, and the returned delimiter offset is 2, whatever
the split point; the socket's state is the one from before. -/
theorem readUntil_boundary_crossing (s : Socket) (inBuf h : Nat) (inLen : Int)
    (d : List Nat) (k : Nat) (hk0 : 0 < k) (hk : k < d.length)
    (hlen : (d.length : Int) + 2 ≤ inLen)
    (h0 : ¬ d <+: abDelimCd d) (h1 : ¬ d <+: (abDelimCd d).drop 1) :
    ((ioCoroReadUntil.ctor s inBuf inLen d).run h
      [ReadEvent.data ((abDelimCd d).take (2 + k)),
        ReadEvent.data ((abDelimCd d).drop (2 + k))]).2 = true ∧
    ((ioCoroReadUntil.ctor s inBuf inLen d).run h
      [ReadEvent.data ((abDelimCd d).take (2 + k)),
        ReadEvent.data ((abDelimCd d).drop (2 + k))]).1.op.await_resume.1
      = (min inLen ((d.length : Int) + 4), 2) ∧
    (d.length : Int) + 2 ≤
      ((ioCoroReadUntil.ctor s inBuf inLen d).run h
        [ReadEvent.data ((abDelimCd d).take (2 + k)),
          ReadEvent.data ((abDelimCd d).drop (2 + k))]).1.op.await_resume.1.1 ∧
    ((ioCoroReadUntil.ctor s inBuf inLen d).run h
      [ReadEvent.data ((abDelimCd d).take (2 + k)),
        ReadEvent.data ((abDelimCd d).drop (2 + k))]).1.op.m_s = s := by
  have hno : ∀ j, j < 2 → ((abDelimCd d).drop j).take d.length ≠ d := by
    intro j hj hocc
    have hj01 : j = 0 ∨ j = 1 := by omega
    rcases hj01 with rfl | rfl
    · exact h0 (List.prefix_iff_eq_take.mpr (by simpa using hocc.symm))
    · exact h1 (List.prefix_iff_eq_take.mpr hocc.symm)
  have hdne : d ≠ [] := by
    intro hnil
    rw [hnil] at hk
    exact Nat.not_lt_zero _ hk
  -- the suspend step registers: the request is not yet satisfied
  have hrun : (ioCoroReadUntil.ctor s inBuf inLen d).run h
      [ReadEvent.data ((abDelimCd d).take (2 + k)),
        ReadEvent.data ((abDelimCd d).drop (2 + k))]
      = ReadUntilRun.drive { op := ioCoroReadUntil.ctor s inBuf inLen d, mem := [] }
          [ReadEvent.data ((abDelimCd d).take (2 + k)),
            ReadEvent.data ((abDelimCd d).drop (2 + k))] := by
    have hne : ¬ ((ioCoroReadUntil.ctor s inBuf inLen d).total
        = (ioCoroReadUntil.ctor s inBuf inLen d).len) := by
      show ¬ ((0 : Int) = inLen)
      omega
    simp only [ioCoroReadUntil.run, ReadUntilRun.await_suspend, if_neg hne, if_true]
  -- the first notification finds nothing and suspends again
  have htake : ((abDelimCd d).take (2 + k)).take (inLen - 0).toNat
      = (abDelimCd d).take (2 + k) := by
    rw [List.take_take]
    congr 1
    omega
  have hstep1 := ReadUntilRun.onReady_data_pending
    { op := ioCoroReadUntil.ctor s inBuf inLen d, mem := [] }
    ((abDelimCd d).take (2 + k))
    (by
      have hscan : findDelim d
          ((([] : List Nat) ++ ((abDelimCd d).take (2 + k)).take (inLen - 0).toNat).drop
            ((0 : Int).toNat - min (0 : Int).toNat (d.length - 1))) = none := by
        rw [htake]
        apply findDelim_eq_none d hdne
        intro j
        have := first_fragment_no_occurrence d k hk hno j
        simpa using this
      exact hscan)
    (by
      show (0 : Int) + ((((abDelimCd d).take (2 + k)).take (inLen - 0).toNat).length : Int)
        ≠ inLen
      rw [htake, List.length_take, abDelimCd_length]
      omega)
  obtain ⟨hpend, hmem, htotal, hlen1, hdelim, -, hsock⟩ := hstep1
  have hmem1 : (ReadUntilRun.onReady { op := ioCoroReadUntil.ctor s inBuf inLen d, mem := [] }
      (ReadEvent.data ((abDelimCd d).take (2 + k)))).1.mem = (abDelimCd d).take (2 + k) := by
    rw [hmem]
    show [] ++ ((abDelimCd d).take (2 + k)).take (inLen - 0).toNat = _
    rw [htake, List.nil_append]
  have htotal1 : (ReadUntilRun.onReady
      { op := ioCoroReadUntil.ctor s inBuf inLen d, mem := [] }
      (ReadEvent.data ((abDelimCd d).take (2 + k)))).1.op.total = ((2 + k : Nat) : Int) := by
    rw [htotal]
    show (0 : Int) + ((((abDelimCd d).take (2 + k)).take (inLen - 0).toNat).length : Int) = _
    rw [htake, List.length_take, abDelimCd_length]
    omega
  -- the second notification finds the delimiter at index 2
  have hstep2 := second_fragment_completes _ d k hk
    (by rw [hlen1]; exact hlen) hno hdelim hmem1 htotal1
  have hdrive : ReadUntilRun.drive { op := ioCoroReadUntil.ctor s inBuf inLen d, mem := [] }
      [ReadEvent.data ((abDelimCd d).take (2 + k)),
        ReadEvent.data ((abDelimCd d).drop (2 + k))]
      = ReadUntilRun.onReady
          (ReadUntilRun.onReady { op := ioCoroReadUntil.ctor s inBuf inLen d, mem := [] }
            (ReadEvent.data ((abDelimCd d).take (2 + k)))).1
          (ReadEvent.data ((abDelimCd d).drop (2 + k))) := by
    simp only [ReadUntilRun.drive, hpend, hstep2.1, Bool.false_eq_true, if_false, if_true]
  rw [hrun, hdrive]
  refine ⟨hstep2.1, ?_, ?_, ?_⟩
  · rw [hstep2.2.1, hlen1]; rfl
  · rw [hstep2.2.1, hlen1]
    show (d.length : Int) + 2 ≤ min inLen ((d.length : Int) + 4)
    omega
  · rw [hstep2.2.2, hsock]; rfl

/-- Witness for C8: the delimiter CR LF CR split after its first byte, in a
buffer of exactly the stream's length. -/
theorem readUntil_boundary_crossing_witness :
    (¬ [13, 10, 13] <+: abDelimCd [13, 10, 13]) ∧
    (¬ [13, 10, 13] <+: (abDelimCd [13, 10, 13]).drop 1) ∧
    ((ioCoroReadUntil.ctor ⟨false, false, false⟩ 4096 7 [13, 10, 13]).run 0
      [ReadEvent.data ((abDelimCd [13, 10, 13]).take (2 + 1)),
        ReadEvent.data ((abDelimCd [13, 10, 13]).drop (2 + 1))]).2 = true ∧
    ((ioCoroReadUntil.ctor ⟨false, false, false⟩ 4096 7 [13, 10, 13]).run 0
      [ReadEvent.data ((abDelimCd [13, 10, 13]).take (2 + 1)),
        ReadEvent.data ((abDelimCd [13, 10, 13]).drop (2 + 1))]).1.op.await_resume.1
      = (min 7 ((([13, 10, 13] : List Nat).length : Int) + 4), 2) :=
  ⟨by decide, by decide,
   (readUntil_boundary_crossing ⟨false, false, false⟩ 4096 0 7 [13, 10, 13] 1
      (by decide) (by decide) (by decide) (by decide) (by decide)).1,
   (readUntil_boundary_crossing ⟨false, false, false⟩ 4096 0 7 [13, 10, 13] 1
      (by decide) (by decide) (by decide) (by decide) (by decide)).2.1⟩

end ioCoro
